import Mathlib

/-!
Shallow embedding of the NTAG424 SUN-message verification core of this
repository, together with proofs checking the specification's claims.

Bytes are modelled as `Nat` (values kept below 256 by the operations),
buffers as `List Nat`, Node `Buffer`s as byte lists, and the Vercel KV
replay ledger as a function from UID strings to the per-UID sorted set of
accepted counters.

Two variants of the verification module exist in the repository and are both
embedded here:
* namespace-style `Lib.*` definitions follow `src/lib/ntag424.ts` (stub
  CMAC check, UID at plaintext bytes 0-6, counter at bytes 7-9);
* `P3.*` definitions follow the session-key implementation in
  `src/unnamed/part_003` (real AES-CMAC over the empty message under a
  derived SDM session key, UID at plaintext bytes 1-7, counter at 8-10).
-/

set_option maxRecDepth 100000
set_option maxHeartbeats 4000000

namespace NTag

/-! ## AES-128 primitive (as used by node `crypto` aes-128-cbc and
`node-aes-cmac`): byte-level, executable. -/

def sbox : List Nat := [
  99, 124, 119, 123, 242, 107, 111, 197, 48, 1, 103, 43, 254, 215, 171, 118,
  202, 130, 201, 125, 250, 89, 71, 240, 173, 212, 162, 175, 156, 164, 114, 192,
  183, 253, 147, 38, 54, 63, 247, 204, 52, 165, 229, 241, 113, 216, 49, 21,
  4, 199, 35, 195, 24, 150, 5, 154, 7, 18, 128, 226, 235, 39, 178, 117,
  9, 131, 44, 26, 27, 110, 90, 160, 82, 59, 214, 179, 41, 227, 47, 132,
  83, 209, 0, 237, 32, 252, 177, 91, 106, 203, 190, 57, 74, 76, 88, 207,
  208, 239, 170, 251, 67, 77, 51, 133, 69, 249, 2, 127, 80, 60, 159, 168,
  81, 163, 64, 143, 146, 157, 56, 245, 188, 182, 218, 33, 16, 255, 243, 210,
  205, 12, 19, 236, 95, 151, 68, 23, 196, 167, 126, 61, 100, 93, 25, 115,
  96, 129, 79, 220, 34, 42, 144, 136, 70, 238, 184, 20, 222, 94, 11, 219,
  224, 50, 58, 10, 73, 6, 36, 92, 194, 211, 172, 98, 145, 149, 228, 121,
  231, 200, 55, 109, 141, 213, 78, 169, 108, 86, 244, 234, 101, 122, 174, 8,
  186, 120, 37, 46, 28, 166, 180, 198, 232, 221, 116, 31, 75, 189, 139, 138,
  112, 62, 181, 102, 72, 3, 246, 14, 97, 53, 87, 185, 134, 193, 29, 158,
  225, 248, 152, 17, 105, 217, 142, 148, 155, 30, 135, 233, 206, 85, 40, 223,
  140, 161, 137, 13, 191, 230, 66, 104, 65, 153, 45, 15, 176, 84, 187, 22]

def invSbox : List Nat := [
  82, 9, 106, 213, 48, 54, 165, 56, 191, 64, 163, 158, 129, 243, 215, 251,
  124, 227, 57, 130, 155, 47, 255, 135, 52, 142, 67, 68, 196, 222, 233, 203,
  84, 123, 148, 50, 166, 194, 35, 61, 238, 76, 149, 11, 66, 250, 195, 78,
  8, 46, 161, 102, 40, 217, 36, 178, 118, 91, 162, 73, 109, 139, 209, 37,
  114, 248, 246, 100, 134, 104, 152, 22, 212, 164, 92, 204, 93, 101, 182, 146,
  108, 112, 72, 80, 253, 237, 185, 218, 94, 21, 70, 87, 167, 141, 157, 132,
  144, 216, 171, 0, 140, 188, 211, 10, 247, 228, 88, 5, 184, 179, 69, 6,
  208, 44, 30, 143, 202, 63, 15, 2, 193, 175, 189, 3, 1, 19, 138, 107,
  58, 145, 17, 65, 79, 103, 220, 234, 151, 242, 207, 206, 240, 180, 230, 115,
  150, 172, 116, 34, 231, 173, 53, 133, 226, 249, 55, 232, 28, 117, 223, 110,
  71, 241, 26, 113, 29, 41, 197, 137, 111, 183, 98, 14, 170, 24, 190, 27,
  252, 86, 62, 75, 198, 210, 121, 32, 154, 219, 192, 254, 120, 205, 90, 244,
  31, 221, 168, 51, 136, 7, 199, 49, 177, 18, 16, 89, 39, 128, 236, 95,
  96, 81, 127, 169, 25, 181, 74, 13, 45, 229, 122, 159, 147, 201, 156, 239,
  160, 224, 59, 77, 174, 42, 245, 176, 200, 235, 187, 60, 131, 83, 153, 97,
  23, 43, 4, 126, 186, 119, 214, 38, 225, 105, 20, 99, 85, 33, 12, 125]

/-- Look a byte up in a 256-entry table. -/
def tbl (t : List Nat) (b : Nat) : Nat := t.getD b 0

/-- Byte-wise xor of two buffers (length = the shorter of the two). -/
def xorBytes (a b : List Nat) : List Nat := List.zipWith (fun x y => x ^^^ y) a b

/-- Round constants for AES-128 key expansion. -/
def rcon : List Nat := [0x01, 0x02, 0x04, 0x08, 0x10, 0x20, 0x40, 0x80, 0x1b, 0x36]

def subWord (w : List Nat) : List Nat := w.map (tbl sbox)

def rotWord (w : List Nat) : List Nat := w.drop 1 ++ w.take 1

/-- The first four key-schedule words `w0..w3` are the key bytes. -/
def initialWords (key : List Nat) : List (List Nat) :=
  [key.take 4, (key.drop 4).take 4, (key.drop 8).take 4, (key.drop 12).take 4]

/-- Append `n` further key-schedule words (FIPS-197 key expansion step). -/
def expandLoop : Nat → List (List Nat) → List (List Nat)
  | 0, ws => ws
  | n + 1, ws =>
    let i := ws.length
    let prev := ws.getD (i - 1) []
    let old := ws.getD (i - 4) []
    let t :=
      if i % 4 == 0 then
        xorBytes (subWord (rotWord prev)) [rcon.getD (i / 4 - 1) 0, 0, 0, 0]
      else prev
    expandLoop n (ws ++ [xorBytes old t])

/-- Round key `r` as the concatenation of key-schedule words `4r..4r+3`. -/
def roundKey (ws : List (List Nat)) (r : Nat) : List Nat :=
  ws.getD (4 * r) [] ++ ws.getD (4 * r + 1) [] ++ ws.getD (4 * r + 2) [] ++ ws.getD (4 * r + 3) []

/-- The eleven AES-128 round keys. -/
def roundKeys (key : List Nat) : List (List Nat) :=
  (List.range 11).map (roundKey (expandLoop 40 (initialWords key)))

/-- Multiplication by x in GF(2^8) mod x^8+x^4+x^3+x+1. -/
def xtime (b : Nat) : Nat := if b < 128 then 2 * b else (2 * b - 256) ^^^ 0x1b

def mul2 (b : Nat) : Nat := xtime b
def mul3 (b : Nat) : Nat := mul2 b ^^^ b
def mul4 (b : Nat) : Nat := mul2 (mul2 b)
def mul8 (b : Nat) : Nat := mul2 (mul4 b)
def mul9 (b : Nat) : Nat := mul8 b ^^^ b
def mul11 (b : Nat) : Nat := mul8 b ^^^ mul2 b ^^^ b
def mul13 (b : Nat) : Nat := mul8 b ^^^ mul4 b ^^^ b
def mul14 (b : Nat) : Nat := mul8 b ^^^ mul4 b ^^^ mul2 b

def subBytes (s : List Nat) : List Nat := s.map (tbl sbox)

def invSubBytes (s : List Nat) : List Nat := s.map (tbl invSbox)

/-- ShiftRows on the flat 16-byte state (byte `r + 4c` is row `r`, column `c`). -/
def shiftRows (s : List Nat) : List Nat :=
  (List.range 16).map (fun i => s.getD (i % 4 + 4 * ((i / 4 + i % 4) % 4)) 0)

def invShiftRows (s : List Nat) : List Nat :=
  (List.range 16).map (fun i => s.getD (i % 4 + 4 * ((i / 4 + 4 - i % 4) % 4)) 0)

def mixOneCol : List Nat → List Nat
  | [a0, a1, a2, a3] =>
    [mul2 a0 ^^^ mul3 a1 ^^^ a2 ^^^ a3,
     a0 ^^^ mul2 a1 ^^^ mul3 a2 ^^^ a3,
     a0 ^^^ a1 ^^^ mul2 a2 ^^^ mul3 a3,
     mul3 a0 ^^^ a1 ^^^ a2 ^^^ mul2 a3]
  | l => l

def invMixOneCol : List Nat → List Nat
  | [a0, a1, a2, a3] =>
    [mul14 a0 ^^^ mul11 a1 ^^^ mul13 a2 ^^^ mul9 a3,
     mul9 a0 ^^^ mul14 a1 ^^^ mul11 a2 ^^^ mul13 a3,
     mul13 a0 ^^^ mul9 a1 ^^^ mul14 a2 ^^^ mul11 a3,
     mul11 a0 ^^^ mul13 a1 ^^^ mul9 a2 ^^^ mul14 a3]
  | l => l

def mixColumns (s : List Nat) : List Nat :=
  mixOneCol (s.take 4) ++ mixOneCol ((s.drop 4).take 4) ++
    mixOneCol ((s.drop 8).take 4) ++ mixOneCol ((s.drop 12).take 4)

def invMixColumns (s : List Nat) : List Nat :=
  invMixOneCol (s.take 4) ++ invMixOneCol ((s.drop 4).take 4) ++
    invMixOneCol ((s.drop 8).take 4) ++ invMixOneCol ((s.drop 12).take 4)

/-- AES-128 block encryption (FIPS-197 cipher). -/
def aes128EncryptBlock (key block : List Nat) : List Nat :=
  let rks := roundKeys key
  let s0 := xorBytes block (rks.getD 0 [])
  let s :=
    (List.range 9).foldl
      (fun s i => xorBytes (mixColumns (shiftRows (subBytes s))) (rks.getD (i + 1) [])) s0
  xorBytes (shiftRows (subBytes s)) (rks.getD 10 [])

/-- AES-128 block decryption (FIPS-197 inverse cipher). -/
def aes128DecryptBlock (key block : List Nat) : List Nat :=
  let rks := roundKeys key
  let s0 := xorBytes block (rks.getD 10 [])
  let s :=
    (List.range 9).foldl
      (fun s i => invMixColumns (xorBytes (invSubBytes (invShiftRows s)) (rks.getD (9 - i) [])) ) s0
  xorBytes (invSubBytes (invShiftRows s)) (rks.getD 0 [])

/-! ## Hex codecs (Node `Buffer.from(hex, 'hex')` / `buf.toString('hex')`). -/

def hexDigitVal? (c : Char) : Option Nat :=
  let n := c.toNat
  if 48 ≤ n ∧ n ≤ 57 then some (n - 48)
  else if 97 ≤ n ∧ n ≤ 102 then some (n - 87)
  else if 65 ≤ n ∧ n ≤ 70 then some (n - 55)
  else none

/-- Node hex decoding: consume two hex digits per byte, stop (truncating) at
the first invalid digit or odd trailing digit; never throws. -/
def hexPairsAux : List Char → List Nat
  | c1 :: c2 :: rest =>
    match hexDigitVal? c1, hexDigitVal? c2 with
    | some hi, some lo => (16 * hi + lo) :: hexPairsAux rest
    | _, _ => []
  | _ => []

/-- Embeds `hexToBuffer` from the source: `Buffer.from(hex, 'hex')`. -/
def hexToBuffer (s : String) : List Nat := hexPairsAux s.data

/-- The character for hex digit `n` (0-15), uppercase when the flag is set
(character codes: 48 is the code of the zero digit, 55 + 10 that of A,
87 + 10 that of a). -/
def hexDigitChar (upper : Bool) (n : Nat) : Char :=
  Char.ofNat (if n < 10 then 48 + n else (if upper then 55 else 87) + n)

/-- Embeds `buf.toString('hex').toUpperCase()`. -/
def toHexUpper (l : List Nat) : String :=
  String.mk (l.foldr (fun b acc =>
    hexDigitChar true (b / 16) :: hexDigitChar true (b % 16) :: acc) [])

/-- Embeds `buf.toString('hex')` (lowercase). -/
def toHexLower (l : List Nat) : String :=
  String.mk (l.foldr (fun b acc =>
    hexDigitChar false (b / 16) :: hexDigitChar false (b % 16) :: acc) [])

/-- Embeds `buf.readUIntLE(off, 3)`: 3-byte little-endian read. -/
def readUIntLE3 (l : List Nat) (off : Nat) : Nat :=
  l.getD off 0 + 256 * l.getD (off + 1) 0 + 65536 * l.getD (off + 2) 0

/-! ## AES-CMAC (RFC 4493, as implemented by `node-aes-cmac`). -/

def bytesToNatBE (l : List Nat) : Nat := l.foldl (fun a b => 256 * a + b) 0

def natToBytesBE (len n : Nat) : List Nat :=
  (List.range len).map (fun i => n / 256 ^ (len - 1 - i) % 256)

/-- CMAC subkey doubling in GF(2^128). -/
def dblK (b : List Nat) : List Nat :=
  let n := bytesToNatBE b
  natToBytesBE 16 (if n < 2 ^ 127 then 2 * n else ((2 * n) % 2 ^ 128) ^^^ 0x87)

/-- Split a buffer into 16-byte chunks (last one possibly short); the fuel
argument (any bound on the length) makes the recursion structural so that
the definition reduces inside the kernel. -/
def chunks16Fuel : Nat → List Nat → List (List Nat)
  | 0, _ => []
  | _ + 1, [] => []
  | fuel + 1, a :: l => (a :: l).take 16 :: chunks16Fuel fuel ((a :: l).drop 16)

def chunks16 (l : List Nat) : List (List Nat) := chunks16Fuel l.length l

/-- Full (untruncated) 16-byte AES-CMAC of `msg` under 16-byte `key`. -/
def aesCmacFull (key msg : List Nat) : List Nat :=
  let lblock := aes128EncryptBlock key (List.replicate 16 0)
  let k1 := dblK lblock
  let k2 := dblK k1
  let n := msg.length
  let lastBlock :=
    if n == 0 then xorBytes (0x80 :: List.replicate 15 0) k2
    else if n % 16 == 0 then xorBytes (msg.drop (n - 16)) k1
    else xorBytes (msg.drop (16 * (n / 16)) ++ 0x80 :: List.replicate (15 - n % 16) 0) k2
  let fullBlocks :=
    if n == 0 then []
    else if n % 16 == 0 then chunks16 (msg.take (n - 16))
    else chunks16 (msg.take (16 * (n / 16)))
  let x := fullBlocks.foldl (fun x b => aes128EncryptBlock key (xorBytes x b)) (List.replicate 16 0)
  aes128EncryptBlock key (xorBytes x lastBlock)

/-! ## AES-128-CBC decryption with no padding (Node
`createDecipheriv('aes-128-cbc', key, iv)` with `setAutoPadding(false)`). -/

def cbcDecFuel (key : List Nat) : Nat → List Nat → List Nat → List Nat
  | 0, _, _ => []
  | _ + 1, _, [] => []
  | fuel + 1, iv, a :: data =>
    xorBytes (aes128DecryptBlock key ((a :: data).take 16)) iv ++
      cbcDecFuel key fuel ((a :: data).take 16) ((a :: data).drop 16)

def cbcDecAux (key iv data : List Nat) : List Nat := cbcDecFuel key data.length iv data

/-- Embeds `decryptSUNMessage` from the source. `none` models the Node exception
(bad key size, or ciphertext not a multiple of the block size with
auto-padding disabled). -/
def decryptSUNMessage (encryptedData key iv : List Nat) : Option (List Nat) :=
  if key.length = 16 ∧ iv.length = 16 ∧ encryptedData.length % 16 = 0 then
    some (cbcDecAux key iv encryptedData)
  else none

/-! ## Data structures of the verification module (src/lib/ntag424.ts). -/

structure NTAG424Data where
  piccData : String
  cmac : String
deriving DecidableEq

structure VerificationResult where
  valid : Bool
  reason : Option String
  uid : Option String
  counter : Option Nat
  decryptedData : Option String
deriving DecidableEq

/-! ## Replay ledger (src/unnamed/part_005): the Vercel KV sorted set
`counters:<uid>` keyed by UID, member = score = counter value. The per-UID
state is the ascending list of stored counters. -/

def Ledger : Type := String → List Nat

def emptyLedger : Ledger := fun _ => []

/-- Embeds `isCounterUsed`: `kv.zscore(counters:uid, counter) !== null`. -/
def isCounterUsed (st : Ledger) (uid : String) (counter : Nat) : Bool :=
  (st uid).contains counter

/-- Embeds `getMaxCounter`: `kv.zrange(counters:uid, -1, -1)` highest score, `0` when
the UID is unseen. -/
def getMaxCounter (st : Ledger) (uid : String) : Nat :=
  (st uid).getLastD 0

/-- Insert into an ascending sorted set (`kv.zadd`, set semantics). -/
def insertCounter (c : Nat) : List Nat → List Nat
  | [] => [c]
  | x :: xs => if c < x then c :: x :: xs else if c = x then x :: xs else x :: insertCounter c xs

/-- Embeds `saveCounter`: `zadd` then, when more than 1000 members are stored,
`zpopmin` the lowest-scored ones down to 1000. -/
def saveCounter (st : Ledger) (uid : String) (c : Nat) : Ledger :=
  fun u =>
    if u = uid then
      let l := insertCounter c (st uid)
      if 1000 < l.length then l.drop (l.length - 1000) else l
    else st u

/-- Embeds `checkReplayAttack` from src/lib/ntag424.ts lines 129-146: reject when the
counter was used or does not exceed the recorded maximum; otherwise record it.
Returns the verdict together with the ledger after the call. -/
def checkReplayAttack (st : Ledger) (uid : String) (counter : Nat) : Bool × Ledger :=
  if isCounterUsed st uid counter then (false, st)
  else if counter ≤ getMaxCounter st uid then (false, st)
  else (true, saveCounter st uid counter)

/-- Run `checkReplayAttack` over a sequence of counters for one UID,
collecting the verdicts. -/
def runCounters (uid : String) : Ledger → List Nat → List Bool × Ledger
  | st, [] => ([], st)
  | st, c :: cs =>
    let r := checkReplayAttack st uid c
    let rest := runCounters uid r.2 cs
    (r.1 :: rest.1, rest.2)

/-- The counters accepted along a run, in order. -/
def acceptedAlong (uid : String) : Ledger → List Nat → List Nat
  | _, [] => []
  | st, c :: cs =>
    let r := checkReplayAttack st uid c
    if r.1 then c :: acceptedAlong uid r.2 cs else acceptedAlong uid r.2 cs

/-! ## The `src/lib/ntag424.ts` variant. -/

/-- Embeds `verifyCMAC` from src/lib/ntag424.ts lines 33-50: only the 8-byte length
of the provided MAC is checked; no CMAC is computed. -/
def Lib.verifyCMAC (piccData cmac key : List Nat) : Bool :=
  if cmac.length ≠ 8 then false
  else true

/-- Embeds `parsePICCData` from src/lib/ntag424.ts lines 72-117: UID from plaintext
bytes 0-6, counter little-endian from bytes 7-9. When the buffer is not
16-byte aligned, or decryption throws, the raw bytes are parsed instead. -/
def Lib.parsePICCData (piccData : String) (aesKey : Option String) : Option (String × Nat) :=
  let buffer := hexToBuffer piccData
  if buffer.length < 16 then none
  else
    let dataBuffer :=
      match aesKey with
      | none => buffer
      | some kh =>
        if buffer.length % 16 ≠ 0 then buffer
        else
          match decryptSUNMessage buffer (hexToBuffer kh) (List.replicate 16 0) with
          | some d => d
          | none => buffer
    if dataBuffer.length < 10 then none
    else some (toHexUpper (dataBuffer.take 7), readUIntLE3 dataBuffer 7)

/-- Embeds `verifyNTAG424` from src/lib/ntag424.ts lines 151-205, with the KV ledger
passed and returned explicitly. -/
def Lib.verifyNTAG424 (data : NTAG424Data) (aesKey : String) (skipReplayCheck : Bool)
    (st : Ledger) : VerificationResult × Ledger :=
  let key := hexToBuffer aesKey
  let piccData := hexToBuffer data.piccData
  let cmac := hexToBuffer data.cmac
  match Lib.parsePICCData data.piccData (some aesKey) with
  | none => (⟨false, some "Invalid PICC data format", none, none, none⟩, st)
  | some (uid, counter) =>
    if Lib.verifyCMAC piccData cmac key then
      if skipReplayCheck then
        (⟨true, none, some uid, some counter, some (toHexLower piccData)⟩, st)
      else
        match checkReplayAttack st uid counter with
        | (true, st2) =>
          (⟨true, none, some uid, some counter, some (toHexLower piccData)⟩, st2)
        | (false, st2) =>
          (⟨false, some "Replay attack detected - counter already used or invalid",
            some uid, some counter, none⟩, st2)
    else (⟨false, some "CMAC verification failed", some uid, some counter, none⟩, st)

/-! ## The session-key variant (second document of src/unnamed/part_003). -/

/-- Embeds `verifyCMAC` from src/unnamed/part_003 lines 120-149: length check, full
AES-CMAC, truncation to the FIRST 8 bytes, byte-wise comparison. The
`key.length` branch models `aesCmac` throwing inside the `try`. -/
def P3.verifyCMAC (piccData cmac key : List Nat) : Bool :=
  if cmac.length ≠ 8 then false
  else if key.length ≠ 16 then false
  else ((aesCmacFull key piccData).take 8) == cmac

/-- Embeds the `buf.writeUIntLE(c, off, 3)` payload: 3 little-endian bytes. -/
def counterLE3 (c : Nat) : List Nat := [c % 256, c / 256 % 256, c / 65536 % 256]

/-- Overwrite bytes of `buf` starting at `off` with `src` (Node
`Buffer.copy` / `write*` semantics, clipped to the target length). -/
def overlay (buf : List Nat) (off : Nat) (src : List Nat) : List Nat :=
  buf.take off ++ src.take (buf.length - off) ++ buf.drop (off + src.length)

/-- Embeds `generateSDMSessionKey` from src/unnamed/part_003 lines 80-114: build SV2
over a zeroed 16-byte buffer and return the full CMAC of it under the base
key. -/
def generateSDMSessionKey (baseKey : List Nat) (uid : String) (counter : Nat) : List Nat :=
  let sv2 :=
    overlay (overlay (overlay (overlay (overlay (List.replicate 16 0)
      0 [0x3C, 0xC3]) 2 [0x00, 0x01]) 4 [0x00, 0x80]) 6 (hexToBuffer uid))
      13 (counterLE3 counter)
  aesCmacFull baseKey sv2

/-- Embeds `parsePICCData` from src/unnamed/part_003 lines 171-217: skip the 1-byte
marker, UID from plaintext bytes 1-7, counter little-endian from bytes 8-10. -/
def P3.parsePICCData (piccData : String) (aesKey : Option String) : Option (String × Nat) :=
  let buffer := hexToBuffer piccData
  if buffer.length < 16 then none
  else
    let dataBuffer :=
      match aesKey with
      | none => buffer
      | some kh =>
        if buffer.length % 16 ≠ 0 then buffer
        else
          match decryptSUNMessage buffer (hexToBuffer kh) (List.replicate 16 0) with
          | some d => d
          | none => buffer
    if dataBuffer.length < 11 then none
    else some (toHexUpper ((dataBuffer.drop 1).take 7), readUIntLE3 dataBuffer 8)

/-- Embeds `verifyNTAG424` from src/unnamed/part_003 lines 251-320: decrypt, parse,
derive the SDM session key, verify the CMAC over the EMPTY message, then the
optional replay check. The `none` branch of the decryption models the thrown
Node exception reaching the surrounding catch (reason string elided). -/
def P3.verifyNTAG424 (data : NTAG424Data) (aesKey : String) (skipReplayCheck : Bool)
    (st : Ledger) : VerificationResult × Ledger :=
  let key := hexToBuffer aesKey
  let piccDataEncrypted := hexToBuffer data.piccData
  let cmac := hexToBuffer data.cmac
  match decryptSUNMessage piccDataEncrypted key (List.replicate 16 0) with
  | none => (⟨false, some "Verification error", none, none, none⟩, st)
  | some piccDataDecrypted =>
    match P3.parsePICCData data.piccData (some aesKey) with
    | none => (⟨false, some "Invalid PICC data format", none, none, none⟩, st)
    | some (uid, counter) =>
      let sessionKey := generateSDMSessionKey key uid counter
      if P3.verifyCMAC [] cmac sessionKey then
        if skipReplayCheck then
          (⟨true, none, some uid, some counter, some (toHexLower piccDataDecrypted)⟩, st)
        else
          match checkReplayAttack st uid counter with
          | (true, st2) =>
            (⟨true, none, some uid, some counter, some (toHexLower piccDataDecrypted)⟩, st2)
          | (false, st2) =>
            (⟨false, some "Replay attack detected - counter already used or invalid",
              some uid, some counter, none⟩, st2)
      else (⟨false, some "CMAC verification failed", some uid, some counter, none⟩, st)

/-- NXP AN12196 MACt truncation: the odd-indexed bytes of the full CMAC.
Used to state what the provided 8-byte tag of the reference vector actually
is; the repository code uses `take 8` instead. -/
def oddIndexBytes (l : List Nat) : List Nat :=
  (List.range 8).map (fun i => l.getD (2 * i + 1) 0)

/-! ## Concrete test-vector strings. -/

/-- piccData of the reference vector. -/
def vecPicc : String := "9AA3D8DF06409B5AA4581429AE8C0611"

/-- cmac of the reference vector. -/
def vecCmac : String := "F9DAF12E0CFCF363"

/-- The all-zero 16-byte key as a 32-character hex string. -/
def zeroKeyHex : String := "00000000000000000000000000000000"

/-! ## Sorted-list lemmas for the replay ledger. -/

theorem getD_mem_of_lt {A : Type} (l : List A) (i : Nat) (d : A) (h : i < l.length) :
    l.getD i d ∈ l := by
  rw [List.getD_eq_getElem l d h]
  exact l.getElem_mem h

theorem getLastD_cons_cons (a b : Nat) (t : List Nat) :
    (a :: b :: t).getLastD 0 = (b :: t).getLastD 0 := by
  simp [List.getLastD_eq_getLast?, List.getLast?_cons_cons]

theorem mem_le_getLastD : ∀ {l : List Nat}, List.Sorted (· < ·) l →
    ∀ {x : Nat}, x ∈ l → x ≤ l.getLastD 0
  | [], _, _, hx => absurd hx (List.not_mem_nil _)
  | [a], _, x, hx => by
      simp at hx
      simp [hx, List.getLastD_eq_getLast?]
  | a :: b :: t, hs, x, hx => by
      rcases List.sorted_cons.mp hs with ⟨ha, ht⟩
      rw [getLastD_cons_cons]
      rcases List.mem_cons.mp hx with h1 | h2
      · exact Nat.le_trans (Nat.le_of_lt (h1 ▸ ha b (by simp))) (mem_le_getLastD ht (by simp))
      · exact mem_le_getLastD ht h2

theorem mem_insertCounter {c : Nat} {l : List Nat} {x : Nat}
    (hx : x ∈ insertCounter c l) : x = c ∨ x ∈ l := by
  induction l with
  | nil =>
    simp [insertCounter] at hx
    exact Or.inl hx
  | cons a t ih =>
    rw [insertCounter] at hx
    by_cases h1 : c < a
    · simp only [if_pos h1] at hx
      rcases List.mem_cons.mp hx with h | h
      · exact Or.inl h
      · exact Or.inr h
    · simp only [if_neg h1] at hx
      by_cases h2 : c = a
      · simp only [if_pos h2] at hx
        exact Or.inr hx
      · simp only [if_neg h2] at hx
        rcases List.mem_cons.mp hx with h | h
        · exact Or.inr (by simp [h])
        · rcases ih h with h3 | h3
          · exact Or.inl h3
          · exact Or.inr (by simp [h3])

theorem insertCounter_sorted {l : List Nat} (hs : List.Sorted (· < ·) l) (c : Nat) :
    List.Sorted (· < ·) (insertCounter c l) := by
  induction l with
  | nil => simp [insertCounter]
  | cons a t ih =>
    rcases List.sorted_cons.mp hs with ⟨ha, ht⟩
    rw [insertCounter]
    by_cases h1 : c < a
    · simp only [if_pos h1]
      refine List.sorted_cons.mpr ⟨fun b hb => ?_, hs⟩
      rcases List.mem_cons.mp hb with h | h
      · omega
      · exact Nat.lt_trans h1 (ha b h)
    · simp only [if_neg h1]
      by_cases h2 : c = a
      · simp only [if_pos h2]
        exact hs
      · simp only [if_neg h2]
        refine List.sorted_cons.mpr ⟨fun b hb => ?_, ih ht⟩
        rcases mem_insertCounter hb with h3 | h3
        · omega
        · exact ha b h3

/-- Inserting a counter above every stored one appends it at the end. -/
theorem insertCounter_append {c : Nat} : ∀ {l : List Nat}, (∀ x ∈ l, x < c) →
    insertCounter c l = l ++ [c]
  | [], _ => by simp [insertCounter]
  | a :: t, h => by
      have ha : a < c := h a (by simp)
      rw [insertCounter, if_neg (by omega), if_neg (by omega)]
      rw [insertCounter_append (fun x hx => h x (by simp [hx]))]
      simp

theorem sorted_drop {l : List Nat} (hs : List.Sorted (· < ·) l) (k : Nat) :
    List.Sorted (· < ·) (l.drop k) :=
  List.Pairwise.sublist (List.drop_sublist k l) hs

theorem getLastD_append_singleton (l : List Nat) (c : Nat) :
    (l ++ [c]).getLastD 0 = c := by
  simp [List.getLastD_eq_getLast?, List.getLast?_concat]

theorem getLastD_drop {l : List Nat} {k : Nat} (h : k < l.length) :
    (l.drop k).getLastD 0 = l.getLastD 0 := by
  have hne : l.drop k ≠ [] := by
    intro hcon
    have := List.length_drop k l
    rw [hcon] at this
    simp at this
    omega
  have hsplit : l.take k ++ l.drop k = l := List.take_append_drop k l
  rw [List.getLastD_eq_getLast?, List.getLastD_eq_getLast?]
  conv_rhs => rw [← hsplit]
  rw [List.getLast?_append_of_ne_nil _ hne]

theorem getLastD_mem {l : List Nat} (h : l ≠ []) : l.getLastD 0 ∈ l := by
  rw [List.getLastD_eq_getLast?, List.getLast?_eq_getLast_of_ne_nil h]
  simpa using List.getLast_mem h

/-! ## Step lemmas about the replay ledger operations. -/

/-- Properties of `saveCounter` at the written UID when the new counter is
above everything stored: sortedness is kept, the counter is stored, and it
becomes the recorded maximum, eviction notwithstanding. -/
theorem saveCounter_above {st : Ledger} {uid : String} {c : Nat}
    (hs : List.Sorted (· < ·) (st uid)) (hgt : ∀ x ∈ st uid, x < c) :
    List.Sorted (· < ·) (saveCounter st uid c uid) ∧
      c ∈ saveCounter st uid c uid ∧ (saveCounter st uid c uid).getLastD 0 = c := by
  have happ : insertCounter c (st uid) = st uid ++ [c] := insertCounter_append hgt
  have hsorted2 : List.Sorted (· < ·) (insertCounter c (st uid)) := insertCounter_sorted hs c
  have huid : saveCounter st uid c uid =
      (if 1000 < (insertCounter c (st uid)).length then
        (insertCounter c (st uid)).drop ((insertCounter c (st uid)).length - 1000)
      else insertCounter c (st uid)) := by
    simp [saveCounter]
  rw [huid]
  by_cases htrim : 1000 < (insertCounter c (st uid)).length
  · rw [if_pos htrim]
    have hk : (insertCounter c (st uid)).length - 1000 < (insertCounter c (st uid)).length := by
      omega
    have hlast : ((insertCounter c (st uid)).drop
        ((insertCounter c (st uid)).length - 1000)).getLastD 0 =
        (insertCounter c (st uid)).getLastD 0 := getLastD_drop hk
    have hlast2 : (insertCounter c (st uid)).getLastD 0 = c := by
      rw [happ]; exact getLastD_append_singleton _ _
    have hne : (insertCounter c (st uid)).drop
        ((insertCounter c (st uid)).length - 1000) ≠ [] := by
      intro hcon
      have := List.length_drop ((insertCounter c (st uid)).length - 1000) (insertCounter c (st uid))
      rw [hcon] at this
      simp at this
      omega
    refine ⟨sorted_drop hsorted2 _, ?_, by rw [hlast, hlast2]⟩
    have := getLastD_mem hne
    rw [hlast, hlast2] at this
    exact this
  · rw [if_neg htrim]
    refine ⟨hsorted2, ?_, by rw [happ]; exact getLastD_append_singleton _ _⟩
    rw [happ]
    simp

/-- The rejecting paths of `checkReplayAttack` leave the ledger unchanged. -/
theorem checkReplay_reject_frame (st : Ledger) (uid : String) (c : Nat)
    (h : (checkReplayAttack st uid c).1 = false) : (checkReplayAttack st uid c).2 = st := by
  unfold checkReplayAttack at h ⊢
  by_cases h1 : isCounterUsed st uid c
  · simp [h1]
  · by_cases h2 : c ≤ getMaxCounter st uid
    · simp [h1, h2]
    · simp [h1, h2] at h

/-- Lemma: `checkReplayAttack` accepts exactly when the counter is unused and above
the recorded maximum. -/
theorem checkReplay_accept_iff (st : Ledger) (uid : String) (c : Nat) :
    (checkReplayAttack st uid c).1 = true ↔
      ¬ c ∈ st uid ∧ getMaxCounter st uid < c := by
  unfold checkReplayAttack
  by_cases h1 : isCounterUsed st uid c
  · have hmem : c ∈ st uid := List.elem_iff.mp h1
    simp [h1, hmem]
  · have hni : ¬ c ∈ st uid := fun hmem => h1 (List.elem_iff.mpr hmem)
    by_cases h2 : c ≤ getMaxCounter st uid
    · simp [h1, h2, hni]
      try omega
    · simp [h1, h2, hni]
      try omega

/-- On acceptance the new ledger is `saveCounter` of the old one. -/
theorem checkReplay_accept_state (st : Ledger) (uid : String) (c : Nat)
    (h : (checkReplayAttack st uid c).1 = true) :
    (checkReplayAttack st uid c).2 = saveCounter st uid c := by
  unfold checkReplayAttack at h ⊢
  by_cases h1 : isCounterUsed st uid c
  · simp [h1] at h
  · by_cases h2 : c ≤ getMaxCounter st uid
    · simp [h1, h2] at h
    · simp [h1, h2]

/-- A step keeps the per-UID counter list sorted. -/
theorem checkReplay_sorted {st : Ledger} {uid : String} (c : Nat)
    (hs : List.Sorted (· < ·) (st uid)) :
    List.Sorted (· < ·) ((checkReplayAttack st uid c).2 uid) := by
  by_cases h : (checkReplayAttack st uid c).1 = true
  · rw [checkReplay_accept_state st uid c h]
    rcases checkReplay_accept_iff st uid c |>.mp h with ⟨_, hmax⟩
    have hgt : ∀ x ∈ st uid, x < c := fun x hx =>
      Nat.lt_of_le_of_lt (mem_le_getLastD hs hx) hmax
    exact (saveCounter_above hs hgt).1
  · rw [checkReplay_reject_frame st uid c (by simpa using h)]
    exact hs

/-- A step never lowers the recorded maximum. -/
theorem checkReplay_max_mono {st : Ledger} {uid : String} (c : Nat)
    (hs : List.Sorted (· < ·) (st uid)) :
    getMaxCounter st uid ≤ getMaxCounter (checkReplayAttack st uid c).2 uid := by
  by_cases h : (checkReplayAttack st uid c).1 = true
  · rw [checkReplay_accept_state st uid c h]
    rcases checkReplay_accept_iff st uid c |>.mp h with ⟨_, hmax⟩
    have hgt : ∀ x ∈ st uid, x < c := fun x hx =>
      Nat.lt_of_le_of_lt (mem_le_getLastD hs hx) hmax
    have h2 : getMaxCounter (saveCounter st uid c) uid = c := (saveCounter_above hs hgt).2.2
    rw [h2]
    exact Nat.le_of_lt hmax
  · rw [checkReplay_reject_frame st uid c (by simpa using h)]

/-- On acceptance the recorded maximum becomes the accepted counter, even
when eviction trims the stored window. -/
theorem checkReplay_accept_max {st : Ledger} {uid : String} {c : Nat}
    (hs : List.Sorted (· < ·) (st uid)) (h : (checkReplayAttack st uid c).1 = true) :
    getMaxCounter (checkReplayAttack st uid c).2 uid = c := by
  rw [checkReplay_accept_state st uid c h]
  rcases checkReplay_accept_iff st uid c |>.mp h with ⟨_, hmax⟩
  have hgt : ∀ x ∈ st uid, x < c := fun x hx =>
    Nat.lt_of_le_of_lt (mem_le_getLastD hs hx) hmax
  exact (saveCounter_above hs hgt).2.2

theorem runCounters_sorted (uid : String) :
    ∀ (cs : List Nat) (st : Ledger), List.Sorted (· < ·) (st uid) →
      List.Sorted (· < ·) ((runCounters uid st cs).2 uid)
  | [], st, hs => hs
  | c :: cs, st, hs => by
      rw [runCounters]
      exact runCounters_sorted uid cs _ (checkReplay_sorted c hs)

theorem runCounters_max_mono (uid : String) :
    ∀ (cs : List Nat) (st : Ledger), List.Sorted (· < ·) (st uid) →
      getMaxCounter st uid ≤ getMaxCounter ((runCounters uid st cs).2) uid
  | [], st, _ => Nat.le_refl _
  | c :: cs, st, hs => by
      rw [runCounters]
      exact Nat.le_trans (checkReplay_max_mono c hs)
        (runCounters_max_mono uid cs _ (checkReplay_sorted c hs))

/-- Every counter accepted along a run exceeds the starting maximum. -/
theorem acceptedAlong_gt (uid : String) :
    ∀ (cs : List Nat) (st : Ledger), List.Sorted (· < ·) (st uid) →
      ∀ x ∈ acceptedAlong uid st cs, getMaxCounter st uid < x
  | [], _, _, x, hx => absurd hx (List.not_mem_nil x)
  | c :: cs, st, hs, x, hx => by
      rw [acceptedAlong] at hx
      by_cases h : (checkReplayAttack st uid c).1 = true
      · rw [if_pos h] at hx
        rcases List.mem_cons.mp hx with h1 | h2
        · rw [h1]
          exact (checkReplay_accept_iff st uid c |>.mp h).2
        · have hnext := acceptedAlong_gt uid cs _ (checkReplay_sorted c hs) x h2
          exact Nat.lt_of_le_of_lt (checkReplay_max_mono c hs) hnext
      · rw [if_neg h] at hx
        rw [checkReplay_reject_frame st uid c (by simpa using h)] at hx
        exact acceptedAlong_gt uid cs st hs x hx

/-- The accepted counters along any run are strictly increasing. -/
theorem acceptedAlong_pairwise (uid : String) :
    ∀ (cs : List Nat) (st : Ledger), List.Sorted (· < ·) (st uid) →
      List.Pairwise (· < ·) (acceptedAlong uid st cs)
  | [], _, _ => List.Pairwise.nil
  | c :: cs, st, hs => by
      rw [acceptedAlong]
      by_cases h : (checkReplayAttack st uid c).1 = true
      · rw [if_pos h]
        refine List.pairwise_cons.mpr ⟨fun x hx => ?_,
          acceptedAlong_pairwise uid cs _ (checkReplay_sorted c hs)⟩
        have := acceptedAlong_gt uid cs _ (checkReplay_sorted c hs) x hx
        rw [checkReplay_accept_max hs h] at this
        exact this
      · rw [if_neg h]
        rw [checkReplay_reject_frame st uid c (by simpa using h)]
        exact acceptedAlong_pairwise uid cs st hs

/-- A strictly increasing sequence of counters above the recorded maximum is
accepted in full. -/
theorem runCounters_all_accept (uid : String) :
    ∀ (cs : List Nat) (st : Ledger), List.Sorted (· < ·) (st uid) →
      List.Pairwise (· < ·) cs → (∀ x ∈ cs, getMaxCounter st uid < x) →
      (runCounters uid st cs).1 = List.replicate cs.length true
  | [], _, _, _, _ => rfl
  | c :: cs, st, hs, hp, hgt => by
      have hcmax : getMaxCounter st uid < c := hgt c (by simp)
      have hnotmem : ¬ c ∈ st uid := fun hmem =>
        Nat.lt_irrefl c (Nat.lt_of_le_of_lt (mem_le_getLastD hs hmem) hcmax)
      have haccept : (checkReplayAttack st uid c).1 = true :=
        checkReplay_accept_iff st uid c |>.mpr ⟨hnotmem, hcmax⟩
      rcases List.pairwise_cons.mp hp with ⟨hhead, htail⟩
      have hrec := runCounters_all_accept uid cs (checkReplayAttack st uid c).2
        (checkReplay_sorted c hs) htail (by
          intro x hx
          rw [checkReplay_accept_max hs haccept]
          exact hhead x hx)
      simp only [runCounters, haccept, hrec, List.length_cons, List.replicate_succ]

/-! ## Length lemmas for the AES primitives. -/

theorem expandLoop_length : ∀ (n : Nat) (ws : List (List Nat)),
    (expandLoop n ws).length = ws.length + n
  | 0, ws => rfl
  | n + 1, ws => by
      rw [expandLoop, expandLoop_length n]
      simp
      omega

theorem expandLoop_words_length : ∀ (n : Nat) (ws : List (List Nat)),
    (∀ w ∈ ws, w.length = 4) → 4 ≤ ws.length →
    ∀ w ∈ expandLoop n ws, w.length = 4
  | 0, ws, hws, _, w, hw => hws w hw
  | n + 1, ws, hws, hlen, w, hw => by
      rw [expandLoop] at hw
      have hprev : (ws.getD (ws.length - 1) []).length = 4 :=
        hws _ (getD_mem_of_lt ws (ws.length - 1) [] (by omega))
      have hold : (ws.getD (ws.length - 4) []).length = 4 :=
        hws _ (getD_mem_of_lt ws (ws.length - 4) [] (by omega))
      refine expandLoop_words_length n _ ?_ (by simp; omega) w hw
      intro w2 hw2
      rcases List.mem_append.mp hw2 with h | h
      · exact hws w2 h
      · have hw3 : w2 = xorBytes (ws.getD (ws.length - 4) [])
            (if ws.length % 4 == 0 then
              xorBytes (subWord (rotWord (ws.getD (ws.length - 1) [])))
                [rcon.getD (ws.length / 4 - 1) 0, 0, 0, 0]
            else ws.getD (ws.length - 1) []) := by
          simpa using h
        have hrot : (rotWord (ws.getD (ws.length - 1) [])).length = 4 := by
          rw [rotWord, List.length_append, List.length_drop, List.length_take, hprev]
          omega
        have hsub : (subWord (rotWord (ws.getD (ws.length - 1) []))).length = 4 := by
          rw [subWord, List.length_map, hrot]
        rw [hw3]
        by_cases hc : ws.length % 4 == 0
        · rw [if_pos hc, xorBytes, List.length_zipWith, hold, xorBytes, List.length_zipWith, hsub]
          simp
        · rw [if_neg hc, xorBytes, List.length_zipWith, hold, hprev]
          simp

theorem roundKeys_getD_length {key : List Nat} (hk : key.length = 16) :
    ∀ r : Nat, r < 11 → ((roundKeys key).getD r []).length = 16 := by
  intro r hr
  have hws : ∀ w ∈ expandLoop 40 (initialWords key), w.length = 4 := by
    refine expandLoop_words_length 40 (initialWords key) ?_ (by simp [initialWords])
    intro w hw
    simp [initialWords] at hw
    rcases hw with h | h | h | h <;>
      (rw [h]; simp only [List.length_take, List.length_drop, hk]; rfl)
  have hwslen : (expandLoop 40 (initialWords key)).length = 44 := by
    rw [expandLoop_length]
    simp [initialWords]
  have hmap : (roundKeys key).getD r [] = roundKey (expandLoop 40 (initialWords key)) r := by
    unfold roundKeys
    rw [List.getD_eq_getElem _ _ (by simp; omega)]
    simp
  rw [hmap]
  have h0 := hws _ (getD_mem_of_lt _ (4 * r) [] (by omega))
  have h1 := hws _ (getD_mem_of_lt _ (4 * r + 1) [] (by omega))
  have h2 := hws _ (getD_mem_of_lt _ (4 * r + 2) [] (by omega))
  have h3 := hws _ (getD_mem_of_lt _ (4 * r + 3) [] (by omega))
  rw [roundKey, List.length_append, List.length_append, List.length_append, h0, h1, h2, h3]

theorem roundKeys_getElem?_length {key : List Nat} (hk : key.length = 16)
    (r : Nat) (hr : r < 11) : ((roundKeys key)[r]?.getD []).length = 16 := by
  have h := roundKeys_getD_length hk r hr
  rw [List.getD_eq_getElem?_getD] at h
  exact h

theorem aes128EncryptBlock_length {key : List Nat} (hk : key.length = 16) (block : List Nat) :
    (aes128EncryptBlock key block).length = 16 := by
  unfold aes128EncryptBlock
  simp [xorBytes, shiftRows, subBytes, roundKeys_getElem?_length hk 10 (by omega)]

theorem aes128DecryptBlock_length {key : List Nat} (hk : key.length = 16) (block : List Nat) :
    (aes128DecryptBlock key block).length = 16 := by
  unfold aes128DecryptBlock
  simp [xorBytes, invShiftRows, invSubBytes, roundKeys_getElem?_length hk 0 (by omega)]

theorem aesCmacFull_length {key : List Nat} (hk : key.length = 16) (msg : List Nat) :
    (aesCmacFull key msg).length = 16 := by
  unfold aesCmacFull
  exact aes128EncryptBlock_length hk _

theorem cbcDecFuel_length {key : List Nat} (hk : key.length = 16) :
    ∀ (fuel : Nat) (iv data : List Nat), data.length ≤ fuel → iv.length = 16 →
      data.length % 16 = 0 → (cbcDecFuel key fuel iv data).length = data.length
  | 0, _, data, hb, _, _ => by
      have hdnil : data = [] := List.length_eq_zero.mp (by omega)
      rw [hdnil]
      rfl
  | _ + 1, _, [], _, _, _ => rfl
  | fuel + 1, iv, a :: data, hb, hiv, halign => by
      have hpos : 0 < (a :: data).length := by simp
      have hlen16 : 16 ≤ (a :: data).length := by omega
      have htake : ((a :: data).take 16).length = 16 := by
        rw [List.length_take]
        omega
      have hdrop : ((a :: data).drop 16).length = (a :: data).length - 16 :=
        List.length_drop _ _
      have hrec := cbcDecFuel_length hk fuel ((a :: data).take 16) ((a :: data).drop 16)
        (by rw [hdrop]; omega) htake (by rw [hdrop]; omega)
      rw [cbcDecFuel, List.length_append, hrec, hdrop, xorBytes, List.length_zipWith,
        aes128DecryptBlock_length hk, hiv]
      omega

theorem cbcDecAux_length {key : List Nat} (hk : key.length = 16) (iv data : List Nat)
    (hiv : iv.length = 16) (halign : data.length % 16 = 0) :
    (cbcDecAux key iv data).length = data.length :=
  cbcDecFuel_length hk data.length iv data (Nat.le_refl _) hiv halign

theorem toHexUpper_length (l : List Nat) : (toHexUpper l).length = 2 * l.length := by
  induction l with
  | nil => rfl
  | cons b t ih =>
    simp [toHexUpper, String.length] at ih ⊢
    omega

/-! ## Claim theorems. -/

/-- C6: `checkReplayAttack` rejects iff the counter is in the UID's used set
or is at most the recorded maximum (0 for an unseen UID); otherwise it
accepts and records exactly that (uid, counter); consequently a strictly
increasing positive counter sequence from empty history is accepted in
full, a resubmission of an accepted counter is rejected, and a counter at
or below the current maximum is rejected even if never seen. -/
theorem C6_replay_acceptance_policy :
    (∀ (st : Ledger) (uid : String) (c : Nat),
        (checkReplayAttack st uid c).1 = false ↔
          ((st uid).contains c = true ∨ c ≤ getMaxCounter st uid)) ∧
    (∀ (st : Ledger) (uid : String) (c : Nat), List.Sorted (· < ·) (st uid) →
        (checkReplayAttack st uid c).1 = true →
        (checkReplayAttack st uid c).2 = saveCounter st uid c ∧
          c ∈ (checkReplayAttack st uid c).2 uid) ∧
    (∀ (uid : String) (cs : List Nat), List.Pairwise (· < ·) cs → (∀ x ∈ cs, 0 < x) →
        (runCounters uid emptyLedger cs).1 = List.replicate cs.length true) ∧
    (∀ (st : Ledger) (uid : String) (c : Nat), List.Sorted (· < ·) (st uid) →
        (checkReplayAttack st uid c).1 = true →
        (checkReplayAttack (checkReplayAttack st uid c).2 uid c).1 = false) ∧
    (∀ (st : Ledger) (uid : String) (c : Nat),
        c ≤ getMaxCounter st uid → (checkReplayAttack st uid c).1 = false) := by
  refine ⟨?_, ?_, ?_, ?_, ?_⟩
  · intro st uid c
    have h := checkReplay_accept_iff st uid c
    constructor
    · intro hf
      by_contra hcon
      push_neg at hcon
      rcases hcon with ⟨h1, h2⟩
      have hmem : ¬ c ∈ st uid := by
        intro hm
        exact h1 (List.elem_iff.mpr hm)
      have htrue : (checkReplayAttack st uid c).1 = true := h.mpr ⟨hmem, by omega⟩
      rw [htrue] at hf
      cases hf
    · intro hor
      cases hb : (checkReplayAttack st uid c).1
      · rfl
      · rcases h.mp hb with ⟨hnm, hmax⟩
        rcases hor with h1 | h2
        · exact absurd (List.elem_iff.mp h1) hnm
        · omega
  · intro st uid c hs h
    refine ⟨checkReplay_accept_state st uid c h, ?_⟩
    rw [checkReplay_accept_state st uid c h]
    rcases checkReplay_accept_iff st uid c |>.mp h with ⟨_, hmax⟩
    have hgt : ∀ x ∈ st uid, x < c := fun x hx =>
      Nat.lt_of_le_of_lt (mem_le_getLastD hs hx) hmax
    exact (saveCounter_above hs hgt).2.1
  · intro uid cs hp hpos
    exact runCounters_all_accept uid cs emptyLedger List.sorted_nil hp hpos
  · intro st uid c hs h
    have hmem : c ∈ (checkReplayAttack st uid c).2 uid := by
      rw [checkReplay_accept_state st uid c h]
      rcases checkReplay_accept_iff st uid c |>.mp h with ⟨_, hmax⟩
      have hgt : ∀ x ∈ st uid, x < c := fun x hx =>
        Nat.lt_of_le_of_lt (mem_le_getLastD hs hx) hmax
      exact (saveCounter_above hs hgt).2.1
    cases hb : (checkReplayAttack (checkReplayAttack st uid c).2 uid c).1
    · rfl
    · exact absurd hmem (checkReplay_accept_iff _ uid c |>.mp hb).1
  · intro st uid c hle
    cases hb : (checkReplayAttack st uid c).1
    · rfl
    · rcases checkReplay_accept_iff st uid c |>.mp hb with ⟨_, hmax⟩
      omega

/-- Closed instance of C6: the spec's own example sequence 1, 2, 5, 10 is
accepted in full from empty history. -/
theorem C6_replay_acceptance_policy_witness :
    List.Pairwise (· < ·) [1, 2, 5, 10] ∧ (∀ x ∈ [1, 2, 5, 10], 0 < x) ∧
      (runCounters "04AABBCCDDEE01" emptyLedger [1, 2, 5, 10]).1 =
        List.replicate ([1, 2, 5, 10] : List Nat).length true :=
  ⟨by decide, by decide,
    C6_replay_acceptance_policy.2.2.1 "04AABBCCDDEE01" [1, 2, 5, 10] (by decide) (by decide)⟩

/-- C7: across any sequence of replay-checked operations the recorded
per-UID maximum never decreases (an accepted counter becomes the maximum
even when the 1000-entry eviction trims the stored window), and the
accepted counters along any run are strictly increasing, hence no counter
is ever accepted twice for the same UID. -/
theorem C7_monotone_max_no_double_accept :
    (∀ (st : Ledger) (uid : String) (c : Nat), List.Sorted (· < ·) (st uid) →
        getMaxCounter st uid ≤ getMaxCounter (checkReplayAttack st uid c).2 uid) ∧
    (∀ (st : Ledger) (uid : String) (c : Nat), List.Sorted (· < ·) (st uid) →
        (checkReplayAttack st uid c).1 = true →
        getMaxCounter (checkReplayAttack st uid c).2 uid = c) ∧
    (∀ (uid : String) (cs : List Nat) (st : Ledger), List.Sorted (· < ·) (st uid) →
        List.Pairwise (· < ·) (acceptedAlong uid st cs)) ∧
    (∀ (uid : String) (cs : List Nat) (st : Ledger), List.Sorted (· < ·) (st uid) →
        (acceptedAlong uid st cs).Nodup) ∧
    (∀ (uid : String) (cs : List Nat) (st : Ledger), List.Sorted (· < ·) (st uid) →
        getMaxCounter st uid ≤ getMaxCounter ((runCounters uid st cs).2) uid) := by
  refine ⟨?_, ?_, ?_, ?_, ?_⟩
  · intro st uid c hs
    exact checkReplay_max_mono c hs
  · intro st uid c hs h
    exact checkReplay_accept_max hs h
  · intro uid cs st hs
    exact acceptedAlong_pairwise uid cs st hs
  · intro uid cs st hs
    exact (acceptedAlong_pairwise uid cs st hs).imp fun h => Nat.ne_of_lt h
  · intro uid cs st hs
    exact runCounters_max_mono uid cs st hs

/-- Closed instance of C7: replaying 5 after 3, 5, 7 accepts only the
strictly increasing prefix values once each. -/
theorem C7_monotone_max_no_double_accept_witness :
    List.Sorted (· < ·) (emptyLedger "04AABBCCDDEE02") ∧
      (acceptedAlong "04AABBCCDDEE02" emptyLedger [3, 5, 5, 7, 2]).Nodup :=
  ⟨by decide,
    C7_monotone_max_no_double_accept.2.2.2.1 "04AABBCCDDEE02" [3, 5, 5, 7, 2] emptyLedger
      (by decide)⟩

/-- C2: `verifyCMAC` of src/lib/ntag424.ts returns true for every key, every
message, and every 8-byte provided MAC; its verdict depends only on the
length of the provided MAC (two-run independence), so any parseable message
carrying any syntactically valid 8-byte MAC passes the authentication step
of `verifyNTAG424`. -/
theorem C2_lib_cmac_check_vacuous :
    (∀ (piccData cmac key : List Nat), cmac.length = 8 →
        Lib.verifyCMAC piccData cmac key = true) ∧
    (∀ (p c k p2 c2 k2 : List Nat), c.length = c2.length →
        Lib.verifyCMAC p c k = Lib.verifyCMAC p2 c2 k2) ∧
    (∀ (d : NTAG424Data) (aesKey : String) (st : Ledger) (r : String × Nat),
        Lib.parsePICCData d.piccData (some aesKey) = some r →
        (hexToBuffer d.cmac).length = 8 →
        (Lib.verifyNTAG424 d aesKey true st).1 =
          ⟨true, none, some r.1, some r.2, some (toHexLower (hexToBuffer d.piccData))⟩) := by
  refine ⟨?_, ?_, ?_⟩
  · intro piccData cmac key h
    simp [Lib.verifyCMAC, h]
  · intro p c k p2 c2 k2 h
    simp [Lib.verifyCMAC, h]
  · intro d aesKey st r hp hlen
    rcases r with ⟨uid, ctr⟩
    simp only [Lib.verifyNTAG424, hp]
    rw [show Lib.verifyCMAC (hexToBuffer d.piccData) (hexToBuffer d.cmac)
        (hexToBuffer aesKey) = true by simp [Lib.verifyCMAC, hlen]]
    simp

/-- Closed instance of C2: the reference message passes the src/lib
authentication step with any other 8-byte MAC substituted for its own. -/
theorem C2_lib_cmac_check_vacuous_witness :
    Lib.parsePICCData vecPicc (some zeroKeyHex) = some ("C704623EBA1E1E", 17040) ∧
      (hexToBuffer "0011223344556677").length = 8 ∧
      (Lib.verifyNTAG424 ⟨vecPicc, "0011223344556677"⟩ zeroKeyHex true emptyLedger).1 =
        ⟨true, none, some "C704623EBA1E1E", some 17040,
          some (toHexLower (hexToBuffer vecPicc))⟩ :=
  ⟨by decide, by decide,
    C2_lib_cmac_check_vacuous.2.2 ⟨vecPicc, "0011223344556677"⟩ zeroKeyHex emptyLedger
      ("C704623EBA1E1E", 17040) (by decide) (by decide)⟩

/-- C10: the ledger is mutated only on the accepting path of a replay-checked
run of src/lib's `verifyNTAG424`: with `skipReplayCheck` the ledger is
neither consulted (the verdict is independent of it) nor mutated, every run
returning `valid = false` leaves it unchanged, and an accepting
replay-checked run updates it exactly by `saveCounter` at the parsed
uid/counter. -/
theorem C10_ledger_mutation_frame :
    (∀ (d : NTAG424Data) (aesKey : String) (st : Ledger),
        (Lib.verifyNTAG424 d aesKey true st).2 = st) ∧
    (∀ (d : NTAG424Data) (aesKey : String) (st1 st2 : Ledger),
        (Lib.verifyNTAG424 d aesKey true st1).1 = (Lib.verifyNTAG424 d aesKey true st2).1) ∧
    (∀ (d : NTAG424Data) (aesKey : String) (skip : Bool) (st : Ledger),
        (Lib.verifyNTAG424 d aesKey skip st).1.valid = false →
        (Lib.verifyNTAG424 d aesKey skip st).2 = st) ∧
    (∀ (d : NTAG424Data) (aesKey : String) (st : Ledger) (r : String × Nat),
        Lib.parsePICCData d.piccData (some aesKey) = some r →
        (Lib.verifyNTAG424 d aesKey false st).1.valid = true →
        (Lib.verifyNTAG424 d aesKey false st).2 = saveCounter st r.1 r.2) := by
  refine ⟨?_, ?_, ?_, ?_⟩
  · intro d aesKey st
    unfold Lib.verifyNTAG424
    cases hp : Lib.parsePICCData d.piccData (some aesKey) with
    | none => simp
    | some r =>
      rcases r with ⟨uid, ctr⟩
      by_cases hc : Lib.verifyCMAC (hexToBuffer d.piccData) (hexToBuffer d.cmac)
          (hexToBuffer aesKey) = true
      · simp [hc]
      · simp [Bool.eq_false_iff.mpr hc]
  · intro d aesKey st1 st2
    unfold Lib.verifyNTAG424
    cases hp : Lib.parsePICCData d.piccData (some aesKey) with
    | none => simp
    | some r =>
      rcases r with ⟨uid, ctr⟩
      by_cases hc : Lib.verifyCMAC (hexToBuffer d.piccData) (hexToBuffer d.cmac)
          (hexToBuffer aesKey) = true
      · simp [hc]
      · simp [Bool.eq_false_iff.mpr hc]
  · intro d aesKey skip st hvalid
    revert hvalid
    unfold Lib.verifyNTAG424
    cases hp : Lib.parsePICCData d.piccData (some aesKey) with
    | none => intro _; simp
    | some r =>
      rcases r with ⟨uid, ctr⟩
      by_cases hc : Lib.verifyCMAC (hexToBuffer d.piccData) (hexToBuffer d.cmac)
          (hexToBuffer aesKey) = true
      · cases skip with
        | true => intro hvalid; simp [hc] at hvalid
        | false =>
          rcases hcr : checkReplayAttack st uid ctr with ⟨b, st2⟩
          cases b with
          | true => intro hvalid; simp [hc, hcr] at hvalid
          | false =>
            intro _
            have hst2 : st2 = st := by
              have := checkReplay_reject_frame st uid ctr (by rw [hcr])
              rw [hcr] at this
              exact this
            simp [hc, hcr, hst2]
      · intro _
        simp [Bool.eq_false_iff.mpr hc]
  · intro d aesKey st r hp hvalid
    rcases r with ⟨uid, ctr⟩
    revert hvalid
    unfold Lib.verifyNTAG424
    rw [hp]
    by_cases hc : Lib.verifyCMAC (hexToBuffer d.piccData) (hexToBuffer d.cmac)
        (hexToBuffer aesKey) = true
    · rcases hcr : checkReplayAttack st uid ctr with ⟨b, st2⟩
      cases b with
      | true =>
        intro _
        have hst2 : st2 = saveCounter st uid ctr := by
          have := checkReplay_accept_state st uid ctr (by rw [hcr])
          rw [hcr] at this
          exact this
        simp [hc, hcr, hst2]
      | false => intro hvalid; simp [hc, hcr] at hvalid
    · intro hvalid
      simp [Bool.eq_false_iff.mpr hc] at hvalid

/-- Closed instance of C10: a replay-rejected run (counter already at the
maximum) leaves the ledger unchanged. -/
theorem C10_ledger_mutation_frame_witness :
    (Lib.verifyNTAG424 ⟨vecPicc, vecCmac⟩ zeroKeyHex true emptyLedger).2 = emptyLedger :=
  C10_ledger_mutation_frame.1 ⟨vecPicc, vecCmac⟩ zeroKeyHex emptyLedger

/-- On a 16-byte key and block-aligned input of at least 16 bytes, the
`part_003` decoder returns the marker-skipping parse of the CBC-decrypted
plaintext. -/
theorem P3_parse_decrypted (s keyHex : String) (hk : (hexToBuffer keyHex).length = 16)
    (hlen : 16 ≤ (hexToBuffer s).length) (halign : (hexToBuffer s).length % 16 = 0) :
    P3.parsePICCData s (some keyHex) =
      some (toHexUpper (((cbcDecAux (hexToBuffer keyHex) (List.replicate 16 0)
          (hexToBuffer s)).drop 1).take 7),
        readUIntLE3 (cbcDecAux (hexToBuffer keyHex) (List.replicate 16 0) (hexToBuffer s)) 8) := by
  have hdec : decryptSUNMessage (hexToBuffer s) (hexToBuffer keyHex) (List.replicate 16 0) =
      some (cbcDecAux (hexToBuffer keyHex) (List.replicate 16 0) (hexToBuffer s)) := by
    unfold decryptSUNMessage
    rw [if_pos ⟨hk, by simp, halign⟩]
  have hlendec : (cbcDecAux (hexToBuffer keyHex) (List.replicate 16 0)
      (hexToBuffer s)).length = (hexToBuffer s).length :=
    cbcDecAux_length hk _ _ (by simp) halign
  unfold P3.parsePICCData
  rw [if_neg (by omega)]
  simp only [hdec]
  rw [if_neg (show ¬(hexToBuffer s).length % 16 ≠ 0 from by omega)]
  rw [if_neg (by rw [hlendec]; omega)]

/-- C1: the part_003 MAC verification step returns true iff the provided
8-byte tag equals the first 8 bytes of the full AES-CMAC of the message
under the session key, and returns false whenever the provided tag is not
exactly 8 bytes. -/
theorem C1_cmac_verification_iff (key msg mac : List Nat) (hkey : key.length = 16) :
    (mac.length = 8 → (P3.verifyCMAC msg mac key = true ↔
        mac = (aesCmacFull key msg).take 8)) ∧
    (mac.length ≠ 8 → P3.verifyCMAC msg mac key = false) := by
  constructor
  · intro h8
    unfold P3.verifyCMAC
    rw [if_neg (by omega), if_neg (by omega)]
    constructor
    · intro hb
      exact (beq_iff_eq.mp hb).symm
    · intro he
      exact beq_iff_eq.mpr he.symm
  · intro hne
    unfold P3.verifyCMAC
    rw [if_pos hne]

/-- Closed instance of C1: under the all-zero session key the empty message
authenticates exactly against the first 8 bytes of its CMAC. -/
theorem C1_cmac_verification_iff_witness :
    (List.replicate 16 0 : List Nat).length = 16 ∧
      ([0x43, 0x87, 0xc1, 0x4b, 0x46, 0xef, 0x7e, 0x17] : List Nat).length = 8 ∧
      P3.verifyCMAC [] [0x43, 0x87, 0xc1, 0x4b, 0x46, 0xef, 0x7e, 0x17]
        (List.replicate 16 0) = true :=
  ⟨by decide, by decide,
    ((C1_cmac_verification_iff (List.replicate 16 0) []
      [0x43, 0x87, 0xc1, 0x4b, 0x46, 0xef, 0x7e, 0x17] (by decide)).1
        (by decide)).mpr (by decide)⟩

/-- C4: for block-aligned inputs of at least 16 bytes and a 16-byte key, the
decoder CBC-decrypts the whole input with a zero IV and no padding removal,
requires at least 11 plaintext bytes, skips the marker byte, renders the UID
from plaintext bytes 1-7 as 14 uppercase hex characters, and reads the
counter little-endian from plaintext bytes 8-10. -/
theorem C4_picc_decoder_layout (piccDataHex keyHex : String)
    (hk : (hexToBuffer keyHex).length = 16)
    (hlen : 16 ≤ (hexToBuffer piccDataHex).length)
    (halign : (hexToBuffer piccDataHex).length % 16 = 0) :
    11 ≤ (cbcDecAux (hexToBuffer keyHex) (List.replicate 16 0)
        (hexToBuffer piccDataHex)).length ∧
    P3.parsePICCData piccDataHex (some keyHex) =
      some (toHexUpper (((cbcDecAux (hexToBuffer keyHex) (List.replicate 16 0)
          (hexToBuffer piccDataHex)).drop 1).take 7),
        readUIntLE3 (cbcDecAux (hexToBuffer keyHex) (List.replicate 16 0)
          (hexToBuffer piccDataHex)) 8) ∧
    (toHexUpper (((cbcDecAux (hexToBuffer keyHex) (List.replicate 16 0)
        (hexToBuffer piccDataHex)).drop 1).take 7)).length = 14 := by
  have hlendec : (cbcDecAux (hexToBuffer keyHex) (List.replicate 16 0)
      (hexToBuffer piccDataHex)).length = (hexToBuffer piccDataHex).length :=
    cbcDecAux_length hk _ _ (by simp) halign
  refine ⟨by omega, P3_parse_decrypted piccDataHex keyHex hk hlen halign, ?_⟩
  rw [toHexUpper_length, List.length_take, List.length_drop, hlendec]
  omega

/-- Closed instance of C4 at the reference vector. -/
theorem C4_picc_decoder_layout_witness :
    (hexToBuffer zeroKeyHex).length = 16 ∧ 16 ≤ (hexToBuffer vecPicc).length ∧
      (hexToBuffer vecPicc).length % 16 = 0 ∧
      P3.parsePICCData vecPicc (some zeroKeyHex) =
        some (toHexUpper (((cbcDecAux (hexToBuffer zeroKeyHex) (List.replicate 16 0)
            (hexToBuffer vecPicc)).drop 1).take 7),
          readUIntLE3 (cbcDecAux (hexToBuffer zeroKeyHex) (List.replicate 16 0)
            (hexToBuffer vecPicc)) 8) :=
  ⟨by decide, by decide, by decide,
    (C4_picc_decoder_layout vecPicc zeroKeyHex (by decide) (by decide) (by decide)).2.1⟩

theorem list_len7 {l : List Nat} (h : l.length = 7) :
    ∃ a b c d e f g, l = [a, b, c, d, e, f, g] := by
  rcases l with _ | ⟨a, _ | ⟨b, _ | ⟨c, _ | ⟨d, _ | ⟨e, _ | ⟨f, _ | ⟨g, _ | ⟨x, t⟩⟩⟩⟩⟩⟩⟩⟩ <;>
    simp at h
  exact ⟨a, b, c, d, e, f, g, rfl⟩

/-- C5: for every 16-byte base key, 7-byte UID, and counter below 2^24 the
session-key deriver builds SV2 = 3CC3 || 0001 || 0080 || UID || counter-LE3
and returns the full, untruncated 16-byte CMAC of SV2 under the base key;
the derivation is deterministic. -/
theorem C5_session_key_derivation (baseKey : List Nat) (uidHex : String) (counter : Nat)
    (hb : baseKey.length = 16) (hu : (hexToBuffer uidHex).length = 7)
    (hc : counter < 2 ^ 24) :
    generateSDMSessionKey baseKey uidHex counter =
      aesCmacFull baseKey
        ([0x3C, 0xC3, 0x00, 0x01, 0x00, 0x80] ++ hexToBuffer uidHex ++ counterLE3 counter) ∧
    (generateSDMSessionKey baseKey uidHex counter).length = 16 ∧
    generateSDMSessionKey baseKey uidHex counter =
      generateSDMSessionKey baseKey uidHex counter := by
  obtain ⟨a, b, c, d, e, f, g, hl⟩ := list_len7 hu
  refine ⟨?_, aesCmacFull_length hb _, rfl⟩
  unfold generateSDMSessionKey
  rw [hl]
  rfl

/-- Closed instance of C5 at the reference UID and counter. -/
theorem C5_session_key_derivation_witness :
    (hexToBuffer zeroKeyHex).length = 16 ∧ (hexToBuffer "04623EBA1E1E90").length = 7 ∧
      (66 : Nat) < 2 ^ 24 ∧
      generateSDMSessionKey (hexToBuffer zeroKeyHex) "04623EBA1E1E90" 66 =
        aesCmacFull (hexToBuffer zeroKeyHex)
          ([0x3C, 0xC3, 0x00, 0x01, 0x00, 0x80] ++ hexToBuffer "04623EBA1E1E90" ++
            counterLE3 66) :=
  ⟨by decide, by decide, by decide,
    (C5_session_key_derivation (hexToBuffer zeroKeyHex) "04623EBA1E1E90" 66
      (by decide) (by decide) (by decide)).1⟩

/-- C3 (failing input): on the reference vector, with the replay check
skipped, the session-key implementation decodes UID 04623EBA1E1E90 and
counter 66 and derives the documented session key, but rejects with "CMAC
verification failed" because it truncates the full CMAC to its FIRST 8
bytes, while the provided 8-byte tag equals the ODD-indexed bytes (NXP
MACt) of that same CMAC. -/
theorem C3_reference_vector_rejected :
    P3.parsePICCData vecPicc (some zeroKeyHex) = some ("04623EBA1E1E90", 66) ∧
    (P3.verifyNTAG424 ⟨vecPicc, vecCmac⟩ zeroKeyHex true emptyLedger).1 =
      ⟨false, some "CMAC verification failed", some "04623EBA1E1E90", some 66, none⟩ ∧
    oddIndexBytes (aesCmacFull
        (generateSDMSessionKey (hexToBuffer zeroKeyHex) "04623EBA1E1E90" 66) []) =
      hexToBuffer vecCmac ∧
    (aesCmacFull (generateSDMSessionKey (hexToBuffer zeroKeyHex) "04623EBA1E1E90" 66)
      []).take 8 ≠ hexToBuffer vecCmac := by
  refine ⟨by decide, by decide, by decide, by decide⟩

/-- The 24-byte (not block-aligned) input used against C8 and its raw-parse
outcome. -/
def unalignedPicc : String := "9AA3D8DF06409B5AA4581429AE8C06119AA3D8DF06409B5A"

/-- C8 counterexample: an input of 24 decoded bytes (at least 16 but not a
multiple of 16) is NOT rejected as MalformedInput: src/lib parses the raw
undecrypted bytes and the verification returns valid = true with uid and
counter populated. -/
theorem C8_counterexample_unaligned_accepted :
    (hexToBuffer unalignedPicc).length = 24 ∧
    ¬ (hexToBuffer unalignedPicc).length % 16 = 0 ∧
    Lib.parsePICCData unalignedPicc (some zeroKeyHex) = some ("9AA3D8DF06409B", 5809242) ∧
    (Lib.verifyNTAG424 ⟨unalignedPicc, vecCmac⟩ zeroKeyHex true emptyLedger).1 =
      ⟨true, none, some "9AA3D8DF06409B", some 5809242,
        some "9aa3d8df06409b5aa4581429ae8c06119aa3d8df06409b5a"⟩ := by
  refine ⟨by decide, by decide, by decide, by decide⟩

/-- C8 as amended: an input whose decode is shorter than 16 bytes does fail,
yielding valid = false with the MalformedInput reason and uid/counter
absent, for either value of the replay flag and any ledger, which stays
unchanged. -/
theorem C8_short_input_rejected (s keyHex cmacHex : String) (skip : Bool) (st : Ledger)
    (h : (hexToBuffer s).length < 16) :
    Lib.parsePICCData s (some keyHex) = none ∧
    (Lib.verifyNTAG424 ⟨s, cmacHex⟩ keyHex skip st).1 =
      ⟨false, some "Invalid PICC data format", none, none, none⟩ ∧
    (Lib.verifyNTAG424 ⟨s, cmacHex⟩ keyHex skip st).2 = st := by
  have hp : Lib.parsePICCData s (some keyHex) = none := by
    unfold Lib.parsePICCData
    rw [if_pos h]
  refine ⟨hp, ?_, ?_⟩ <;> simp [Lib.verifyNTAG424, hp]

/-- Closed instance of the amended C8 at a 4-byte input. -/
theorem C8_short_input_rejected_witness :
    (hexToBuffer "9AA3D8DF").length < 16 ∧
      (Lib.verifyNTAG424 ⟨"9AA3D8DF", vecCmac⟩ zeroKeyHex false emptyLedger).1 =
        ⟨false, some "Invalid PICC data format", none, none, none⟩ :=
  ⟨by decide,
    (C8_short_input_rejected "9AA3D8DF" zeroKeyHex vecCmac false emptyLedger (by decide)).2.1⟩

/-- C9 counterexample: with a 1-byte key (decryption throws inside the
decoder's try/catch), the part_003 decoder still yields a TagIdentity,
taken from the raw, undecrypted bytes 1-7 of the input. -/
theorem C9_counterexample_raw_parse :
    decryptSUNMessage (hexToBuffer vecPicc) (hexToBuffer "00") (List.replicate 16 0) = none ∧
    P3.parsePICCData vecPicc (some "00") = some ("A3D8DF06409B5A", 1333412) ∧
    toHexUpper (((hexToBuffer vecPicc).drop 1).take 7) = "A3D8DF06409B5A" ∧
    readUIntLE3 (hexToBuffer vecPicc) 8 = 1333412 := by
  refine ⟨by decide, by decide, by decide, by decide⟩

/-- C9 as amended: on the intended path (16-byte key, block-aligned input of
at least 16 bytes) any TagIdentity and counter the decoder produces do come
from the AES-CBC-decrypted, length-validated plaintext. -/
theorem C9_amended_parse_provenance (s keyHex : String)
    (hk : (hexToBuffer keyHex).length = 16) (hlen : 16 ≤ (hexToBuffer s).length)
    (halign : (hexToBuffer s).length % 16 = 0) :
    ∀ uid ctr, P3.parsePICCData s (some keyHex) = some (uid, ctr) →
      uid = toHexUpper (((cbcDecAux (hexToBuffer keyHex) (List.replicate 16 0)
          (hexToBuffer s)).drop 1).take 7) ∧
      ctr = readUIntLE3 (cbcDecAux (hexToBuffer keyHex) (List.replicate 16 0)
          (hexToBuffer s)) 8 := by
  intro uid ctr h
  rw [P3_parse_decrypted s keyHex hk hlen halign] at h
  injection h with h2
  exact ⟨(congrArg Prod.fst h2).symm, (congrArg Prod.snd h2).symm⟩

/-- Closed instance of the amended C9 at the reference vector. -/
theorem C9_amended_parse_provenance_witness :
    P3.parsePICCData vecPicc (some zeroKeyHex) = some ("04623EBA1E1E90", 66) ∧
      "04623EBA1E1E90" = toHexUpper (((cbcDecAux (hexToBuffer zeroKeyHex)
        (List.replicate 16 0) (hexToBuffer vecPicc)).drop 1).take 7) :=
  ⟨by decide,
    (C9_amended_parse_provenance vecPicc zeroKeyHex (by decide) (by decide) (by decide)
      "04623EBA1E1E90" 66 (by decide)).1⟩

end NTag
